import Mathlib

/-
  Verification development for the topology core of a peer-to-peer overlay
  networking node (node/Topology.hpp).

  The header is embedded shallowly: the physical-path configuration table is a
  list of entries, the Hashtable containers become association lists with the
  std::map-like bracket operator (which inserts a default-constructed value on
  a missing key, as forced by the reference-binding uses in Topology::add and
  Topology::getPath), SharedPtr values become Option, and the C++ objects
  behind the pointers become structures carrying an allocation number so that
  object identity is expressible.
-/

namespace ZeroTier

/-- Modelled from the spec: a physical endpoint address is opaque to this core
beyond equality and subnet-membership tests (InetAddress.hpp is not among the
sources), so an address is a natural number. -/
abbrev PhysAddr := Nat

/-- Modelled from the spec: a configured physical path is a subnet given by a
network value and a count of host bits; this stands for the InetAddress used
as a subnet in Topology::_physicalPathConfig (InetAddress.hpp is not among the
sources, the spec describes the lookup as a subnet-prefix match). -/
structure InetSubnet where
  network : Nat
  hostBits : Nat
deriving DecidableEq

/-- Modelled from the spec: InetAddress::containsAddress as a subnet-prefix
match, true when the address with its host bits stripped equals the network
value of the subnet. -/
def InetSubnet.containsAddress (s : InetSubnet) (a : PhysAddr) : Bool :=
  a / 2 ^ s.hostBits == s.network

/-- Mirror of the ZT_PhysicalPathConfiguration struct fields used by
Topology.hpp: the trusted path id (a 64-bit value, 0 reserved) and the MTU. -/
structure ZT_PhysicalPathConfiguration where
  trustedPathId : Nat
  mtu : Nat
deriving DecidableEq

/-- The configured physical-path table: the first _numConfiguredPhysicalPaths
entries of Topology::_physicalPathConfig, each a pair of a subnet and a
ZT_PhysicalPathConfiguration, in configuration order. -/
abbrev PhysicalPathConfig := List (InetSubnet × ZT_PhysicalPathConfiguration)

/-- Embedding of Topology::shouldInboundPathBeTrusted: scan the configured
entries, returning true on the first whose trusted path id equals the claimed
one and whose subnet contains the originating address. -/
def shouldInboundPathBeTrusted (cfg : PhysicalPathConfig) (physicalAddress : PhysAddr)
    (trustedPathId : Nat) : Bool :=
  match cfg with
  | [] => false
  | e :: rest =>
    ((e.2.trustedPathId == trustedPathId) && e.1.containsAddress physicalAddress)
      || shouldInboundPathBeTrusted rest physicalAddress trustedPathId

/-- Embedding of Topology::getOutboundPathTrust: return the trusted path id of
the first configured entry whose subnet contains the address, else 0. -/
def getOutboundPathTrust (cfg : PhysicalPathConfig) (physicalAddress : PhysAddr) : Nat :=
  match cfg with
  | [] => 0
  | e :: rest =>
    if e.1.containsAddress physicalAddress then e.2.trustedPathId
    else getOutboundPathTrust rest physicalAddress

/-- Embedding of Topology::getOutboundPathInfo: the C++ takes the mtu and
trustedPathId variables by reference and writes both from the first matching
entry, returning without touching them when no entry matches; here the two
variables come in as arguments and go out as the result pair (mtu first). -/
def getOutboundPathInfo (cfg : PhysicalPathConfig) (physicalAddress : PhysAddr)
    (mtu : Nat) (trustedPathId : Nat) : Nat × Nat :=
  match cfg with
  | [] => (mtu, trustedPathId)
  | e :: rest =>
    if e.1.containsAddress physicalAddress then (e.2.mtu, e.2.trustedPathId)
    else getOutboundPathInfo rest physicalAddress mtu trustedPathId

/-- C1: shouldInboundPathBeTrusted returns true exactly when some configured
entry has both the claimed trusted path id and a subnet containing the
originating address; an id match in one entry with the subnet match only in
another entry does not satisfy the right-hand side, so such calls return
false. -/
theorem shouldInboundPathBeTrusted_iff (cfg : PhysicalPathConfig) (a : PhysAddr) (t : Nat) :
    shouldInboundPathBeTrusted cfg a t = true ↔
      ∃ e ∈ cfg, e.1.containsAddress a = true ∧ e.2.trustedPathId = t := by
  induction cfg with
  | nil => simp [shouldInboundPathBeTrusted]
  | cons e rest ih =>
    simp only [shouldInboundPathBeTrusted, Bool.or_eq_true, Bool.and_eq_true, beq_iff_eq,
      List.mem_cons, ih]
    constructor
    · rintro (⟨hid, hsub⟩ | ⟨f, hf, hfs, hfid⟩)
      · exact ⟨e, Or.inl rfl, hsub, hid⟩
      · exact ⟨f, Or.inr hf, hfs, hfid⟩
    · rintro ⟨f, hf | hf, hfs, hfid⟩
      · subst hf; exact Or.inl ⟨hfid, hfs⟩
      · exact Or.inr ⟨f, hf, hfs, hfid⟩

/-- Helper for C8: a scan over a table whose prefix has no matching subnet and
whose next entry matches stops at that entry. -/
theorem getOutboundPathTrust_first (pre : PhysicalPathConfig)
    (e : InetSubnet × ZT_PhysicalPathConfiguration) (suf : PhysicalPathConfig) (a : PhysAddr)
    (hpre : ∀ f ∈ pre, f.1.containsAddress a = false)
    (he : e.1.containsAddress a = true) :
    getOutboundPathTrust (pre ++ e :: suf) a = e.2.trustedPathId := by
  induction pre with
  | nil => simp [getOutboundPathTrust, he]
  | cons f pre ih =>
    have hf : f.1.containsAddress a = false := hpre f (List.mem_cons_self f pre)
    simp only [List.cons_append, getOutboundPathTrust, hf, if_false]
    exact ih fun g hg => hpre g (List.mem_cons_of_mem f hg)

/-- C8: getOutboundPathTrust returns 0 when no configured subnet contains the
address, and otherwise returns the trusted path id of the first entry (in
configuration order) whose subnet contains it. -/
theorem getOutboundPathTrust_spec (cfg : PhysicalPathConfig) (a : PhysAddr) :
    ((∀ e ∈ cfg, e.1.containsAddress a = false) → getOutboundPathTrust cfg a = 0)
    ∧ (∀ pre e suf, cfg = pre ++ e :: suf →
        (∀ f ∈ pre, f.1.containsAddress a = false) → e.1.containsAddress a = true →
        getOutboundPathTrust cfg a = e.2.trustedPathId) := by
  constructor
  · intro h
    induction cfg with
    | nil => simp [getOutboundPathTrust]
    | cons e rest ih =>
      have he : e.1.containsAddress a = false := h e (List.mem_cons_self e rest)
      simp only [getOutboundPathTrust, he, if_false]
      exact ih fun f hf => h f (List.mem_cons_of_mem e hf)
  · intro pre e suf hcfg hpre he
    subst hcfg
    exact getOutboundPathTrust_first pre e suf a hpre he

/-- Closed witness for C8: on a one-entry table mapping the subnet with network
5 and four host bits to trusted path id 42, the address 83 (network part 5)
yields 42, while on the empty table the result is the 0 sentinel. -/
theorem getOutboundPathTrust_spec_witness :
    getOutboundPathTrust [] 7 = 0
    ∧ getOutboundPathTrust [(⟨5, 4⟩, ⟨42, 2800⟩)] 83 = 42 :=
  ⟨(getOutboundPathTrust_spec [] 7).1 (by intro e he; cases he),
   (getOutboundPathTrust_spec [(⟨5, 4⟩, ⟨42, 2800⟩)] 83).2 [] (⟨5, 4⟩, ⟨42, 2800⟩) []
     rfl (by intro f hf; cases hf) (by decide)⟩

/-- Helper for C9: a scan over a table whose prefix has no matching subnet and
whose next entry matches writes both output variables from that entry. -/
theorem getOutboundPathInfo_first (pre : PhysicalPathConfig)
    (e : InetSubnet × ZT_PhysicalPathConfiguration) (suf : PhysicalPathConfig) (a : PhysAddr)
    (mtu : Nat) (trustedPathId : Nat)
    (hpre : ∀ f ∈ pre, f.1.containsAddress a = false)
    (he : e.1.containsAddress a = true) :
    getOutboundPathInfo (pre ++ e :: suf) a mtu trustedPathId = (e.2.mtu, e.2.trustedPathId) := by
  induction pre with
  | nil => simp [getOutboundPathInfo, he]
  | cons f pre ih =>
    have hf : f.1.containsAddress a = false := hpre f (List.mem_cons_self f pre)
    simp only [List.cons_append, getOutboundPathInfo, hf, if_false]
    exact ih fun g hg => hpre g (List.mem_cons_of_mem f hg)

/-- C9: getOutboundPathInfo leaves the mtu and trustedPathId variables exactly
as supplied when no configured subnet contains the address, and sets them both
from the first matching entry otherwise. -/
theorem getOutboundPathInfo_spec (cfg : PhysicalPathConfig) (a : PhysAddr)
    (mtu : Nat) (trustedPathId : Nat) :
    ((∀ e ∈ cfg, e.1.containsAddress a = false) →
        getOutboundPathInfo cfg a mtu trustedPathId = (mtu, trustedPathId))
    ∧ (∀ pre e suf, cfg = pre ++ e :: suf →
        (∀ f ∈ pre, f.1.containsAddress a = false) → e.1.containsAddress a = true →
        getOutboundPathInfo cfg a mtu trustedPathId = (e.2.mtu, e.2.trustedPathId)) := by
  constructor
  · intro h
    induction cfg with
    | nil => simp [getOutboundPathInfo]
    | cons e rest ih =>
      have he : e.1.containsAddress a = false := h e (List.mem_cons_self e rest)
      simp only [getOutboundPathInfo, he, if_false]
      exact ih fun f hf => h f (List.mem_cons_of_mem e hf)
  · intro pre e suf hcfg hpre he
    subst hcfg
    exact getOutboundPathInfo_first pre e suf a mtu trustedPathId hpre he

/-- Closed witness for C9: with output variables preloaded to 9 and 9, a
non-matching address leaves them untouched and a matching one overwrites both
from the matching entry. -/
theorem getOutboundPathInfo_spec_witness :
    getOutboundPathInfo [(⟨5, 4⟩, ⟨42, 2800⟩)] 7 9 9 = (9, 9)
    ∧ getOutboundPathInfo [(⟨5, 4⟩, ⟨42, 2800⟩)] 83 9 9 = (2800, 42) :=
  ⟨(getOutboundPathInfo_spec [(⟨5, 4⟩, ⟨42, 2800⟩)] 7 9 9).1 (by decide),
   (getOutboundPathInfo_spec [(⟨5, 4⟩, ⟨42, 2800⟩)] 83 9 9).2 [] (⟨5, 4⟩, ⟨42, 2800⟩) []
     rfl (by intro f hf; cases hf) (by decide)⟩

/-- Model of the Hashtable container as an association list from keys to
values. Only the operations Topology.hpp uses are embedded: get (pointer
lookup, here an Option on entry presence), the std::map-like bracket operator
(lookup that default-inserts on a missing key, as its reference-binding uses
in Topology::add and Topology::getPath require), and assignment through the
returned reference (set). -/
abbrev HT (κ ν : Type) := List (κ × ν)

/-- Hashtable::get, returning the stored value when an entry for the key is
present and none otherwise. -/
def HT.ent? {κ ν : Type} [DecidableEq κ] : HT κ ν → κ → Option ν
  | [], _ => none
  | (k, v) :: rest, q => if q = k then some v else HT.ent? rest q

/-- Assignment through the reference returned by the bracket operator: replace
the value of the entry for the key, appending a new entry when absent. -/
def HT.put {κ ν : Type} [DecidableEq κ] : HT κ ν → κ → ν → HT κ ν
  | [], k, v => [(k, v)]
  | (k0, v0) :: rest, k, v => if k = k0 then (k0, v) :: rest else (k0, v0) :: HT.put rest k v

/-- The bracket operator of Hashtable (std::map semantics): return the value
for the key, inserting a default-constructed value first when the key is
absent; the possibly-extended table is returned alongside. -/
def HT.bracket {κ ν : Type} [DecidableEq κ] (t : HT κ ν) (k : κ) (dflt : ν) : ν × HT κ ν :=
  match t.ent? k with
  | some v => (v, t)
  | none => (dflt, t.put k dflt)

theorem HT.ent?_put_self {κ ν : Type} [DecidableEq κ] (t : HT κ ν) (k : κ) (v : ν) :
    (t.put k v).ent? k = some v := by
  induction t with
  | nil => simp [HT.put, HT.ent?]
  | cons e rest ih =>
    by_cases h : k = e.1
    · simp [HT.put, HT.ent?, h]
    · simp [HT.put, HT.ent?, h, ih]

theorem HT.ent?_put_ne {κ ν : Type} [DecidableEq κ] (t : HT κ ν) (k q : κ) (v : ν)
    (h : q ≠ k) : (t.put k v).ent? q = t.ent? q := by
  induction t with
  | nil => simp [HT.put, HT.ent?, h]
  | cons e rest ih =>
    by_cases h1 : k = e.1
    · subst h1
      simp [HT.put, HT.ent?, h]
    · by_cases h2 : q = e.1
      · simp [HT.put, HT.ent?, h1, h2]
      · simp [HT.put, HT.ent?, h1, h2, ih]

/-- A node identity: the derived ZeroTier address together with an opaque
public-key value, so distinct identities can share or differ in address. The
default-constructed Identity() sentinel is the all-zero one. -/
structure Identity where
  addr : Nat
  pk : Nat
deriving DecidableEq

/-- The default-constructed Identity(), the empty or invalid sentinel. -/
def Identity.emptyId : Identity := ⟨0, 0⟩

/-- A Peer object: an allocation number standing for C++ object identity, the
peer identity, and the measured latency the ranking reads. Internal peer state
beyond that is outside this core. -/
structure Peer where
  alloc : Nat
  identity : Identity
  latency : Nat
deriving DecidableEq

/-- Peer::address, derived from the identity. -/
def Peer.address (q : Peer) : Nat := q.identity.addr

/-- The peer map Topology::_peers: an association list from addresses to
SharedPtr values (none is the empty shared pointer). -/
abbrev PeerTable := HT Nat (Option Peer)

namespace Topology

/-- Embedding of Topology::add: bind a reference into the table with the
bracket operator (default-inserting an empty shared pointer), set it to the
argument when it is empty, and return the referenced value. -/
def add (peer : Peer) (t : PeerTable) : Peer × PeerTable :=
  match (HT.bracket t peer.address none : Option Peer × PeerTable) with
  | (some q, t1) => (q, t1)
  | (none, t1) => (peer, t1.put peer.address (some peer))

/-- Embedding of Topology::get: look the entry up and return a copy of the
stored shared pointer, or the empty shared pointer when no entry exists. -/
def get (t : PeerTable) (zta : Nat) : Option Peer :=
  match t.ent? zta with
  | some v => v
  | none => none

/-- Embedding of Topology::getIdentity: when the queried address is the local
identity's own address, return the local identity without looking at the
table; otherwise return the identity of the stored peer, or the
default-constructed sentinel when the lookup fails. (An entry holding an
empty shared pointer never survives add, whose write section fills it before
releasing the lock, so the dereference in the source is always of a non-null
pointer; the embedding returns the sentinel on that unreachable shape.) -/
def getIdentity (myIdentity : Identity) (t : PeerTable) (zta : Nat) : Identity :=
  if zta = myIdentity.addr then myIdentity
  else
    match t.ent? zta with
    | some (some q) => q.identity
    | some none => Identity.emptyId
    | none => Identity.emptyId

end Topology

/-- C3: add registers its argument and returns it when no peer is registered
for the argument's address; when some peer q is already registered there, it
returns q and leaves the table untouched; in both cases a get of that address
afterwards returns exactly the peer add returned. -/
theorem Topology.add_spec (peer : Peer) (t : PeerTable) :
    (Topology.get t peer.address = none →
        (Topology.add peer t).1 = peer)
    ∧ (∀ q, Topology.get t peer.address = some q →
        (Topology.add peer t).1 = q ∧ (Topology.add peer t).2 = t)
    ∧ Topology.get (Topology.add peer t).2 peer.address = some (Topology.add peer t).1 := by
  refine ⟨?_, ?_, ?_⟩
  · intro h
    unfold Topology.add HT.bracket
    cases he : HT.ent? t peer.address with
    | none => simp
    | some v =>
      cases v with
      | none => simp
      | some q => simp [Topology.get, he] at h
  · intro q h
    unfold Topology.get at h
    cases he : HT.ent? t peer.address with
    | none => rw [he] at h; cases h
    | some v =>
      rw [he] at h
      subst h
      simp [Topology.add, HT.bracket, he]
  · unfold Topology.add HT.bracket
    cases he : HT.ent? t peer.address with
    | none =>
      simp only []
      simp [Topology.get, HT.ent?_put_self]
    | some v =>
      cases v with
      | none => simp [Topology.get, HT.ent?_put_self]
      | some q => simp [Topology.get, he]

/-- Closed witness for C3: adding a peer to the empty table registers and
returns it; adding a second peer object with the same address returns the
first object, leaves the table unchanged, and get keeps resolving to the
first object. -/
theorem Topology.add_spec_witness :
    Topology.get ([] : PeerTable) (Peer.address ⟨1, ⟨5, 77⟩, 10⟩) = none
    ∧ (Topology.add ⟨1, ⟨5, 77⟩, 10⟩ ([] : PeerTable)).1 = ⟨1, ⟨5, 77⟩, 10⟩
    ∧ Topology.get (Topology.add ⟨2, ⟨5, 88⟩, 9⟩ (Topology.add ⟨1, ⟨5, 77⟩, 10⟩ []).2).2 5
        = some (Topology.add ⟨2, ⟨5, 88⟩, 9⟩ (Topology.add ⟨1, ⟨5, 77⟩, 10⟩ []).2).1
    ∧ (Topology.add ⟨2, ⟨5, 88⟩, 9⟩ (Topology.add ⟨1, ⟨5, 77⟩, 10⟩ []).2).1 = ⟨1, ⟨5, 77⟩, 10⟩
    ∧ (Topology.add ⟨2, ⟨5, 88⟩, 9⟩ (Topology.add ⟨1, ⟨5, 77⟩, 10⟩ []).2).2
        = (Topology.add ⟨1, ⟨5, 77⟩, 10⟩ []).2 :=
  ⟨by decide,
   (Topology.add_spec ⟨1, ⟨5, 77⟩, 10⟩ []).1 (by decide),
   (Topology.add_spec ⟨2, ⟨5, 88⟩, 9⟩ (Topology.add ⟨1, ⟨5, 77⟩, 10⟩ []).2).2.2,
   ((Topology.add_spec ⟨2, ⟨5, 88⟩, 9⟩ (Topology.add ⟨1, ⟨5, 77⟩, 10⟩ []).2).2.1
      ⟨1, ⟨5, 77⟩, 10⟩ (by decide)).1,
   ((Topology.add_spec ⟨2, ⟨5, 88⟩, 9⟩ (Topology.add ⟨1, ⟨5, 77⟩, 10⟩ []).2).2.1
      ⟨1, ⟨5, 77⟩, 10⟩ (by decide)).2⟩

/-- C6: getIdentity of the local address returns the local identity whatever
the table holds; getIdentity of any other address returns the registered
peer's identity, or the default-constructed sentinel when get finds no peer
there. -/
theorem Topology.getIdentity_spec (myIdentity : Identity) (t : PeerTable) (zta : Nat) :
    (zta = myIdentity.addr → Topology.getIdentity myIdentity t zta = myIdentity)
    ∧ (zta ≠ myIdentity.addr →
        Topology.getIdentity myIdentity t zta =
          (match Topology.get t zta with
           | some q => q.identity
           | none => Identity.emptyId)) := by
  constructor
  · intro h
    simp [Topology.getIdentity, h]
  · intro h
    unfold Topology.getIdentity Topology.get
    rw [if_neg h]
    cases he : HT.ent? t zta with
    | none => simp
    | some v => cases v <;> simp

/-- Closed witness for C6: with a peer of a different identity registered
under address 5 and the local identity also at address 5, the self shortcut
wins; at an unregistered address 6 the sentinel comes back; with a local
address 0 distinct from 5, the registered identity comes back. -/
theorem Topology.getIdentity_spec_witness :
    Topology.getIdentity ⟨5, 3⟩ [(5, some ⟨1, ⟨5, 77⟩, 10⟩)] 5 = ⟨5, 3⟩
    ∧ Topology.getIdentity ⟨5, 3⟩ [(5, some ⟨1, ⟨5, 77⟩, 10⟩)] 6 = Identity.emptyId
    ∧ Topology.getIdentity ⟨0, 3⟩ [(5, some ⟨1, ⟨5, 77⟩, 10⟩)] 5 = ⟨5, 77⟩ :=
  ⟨(Topology.getIdentity_spec ⟨5, 3⟩ [(5, some ⟨1, ⟨5, 77⟩, 10⟩)] 5).1 (by decide),
   by
    have h := (Topology.getIdentity_spec ⟨5, 3⟩ [(5, some ⟨1, ⟨5, 77⟩, 10⟩)] 6).2 (by decide)
    simpa using h,
   by
    have h := (Topology.getIdentity_spec ⟨0, 3⟩ [(5, some ⟨1, ⟨5, 77⟩, 10⟩)] 5).2 (by decide)
    simpa using h⟩

/-- The peer/root lock domain of Topology: the _peers table, the _roots
identity set (an insertion list kept duplicate-free by addRoot), and the
_rootPeers ranked list, all guarded by _peers_l. -/
structure TopoState where
  peers : PeerTable
  roots : List Identity
  rootPeers : List Peer
deriving DecidableEq

namespace Topology

/-- Embedding of Topology::root: the front of the ranked root-peer list, or
the empty shared pointer when the list is empty. -/
def root (st : TopoState) : Option Peer :=
  match st.rootPeers with
  | [] => none
  | q :: _ => some q

/-- Embedding of Topology::findRelayTo: element zero of the ranked root-peer
list, or the empty shared pointer when the list is empty; the now and toAddr
arguments are accepted and never read. -/
def findRelayTo (now : Int) (toAddr : Nat) (st : TopoState) : Option Peer :=
  match st.rootPeers with
  | [] => none
  | q :: _ => some q

/-- Embedding of Topology::isRoot: membership of the identity in _roots. -/
def isRoot (st : TopoState) (id : Identity) : Bool :=
  decide (id ∈ st.roots)

/-- Modelled from the spec: Topology::addRoot (defined in the Topology
translation unit, which is not among the sources) registers the identity in
the membership set, idempotently, and does not itself insert into the ranked
list; ranking is computed at the next rankRoots call. -/
def addRoot (id : Identity) (st : TopoState) : TopoState :=
  if id ∈ st.roots then st else { st with roots := id :: st.roots }

/-- Modelled from the spec: Topology::removeRoot (not among the sources)
removes the identity from the membership set, reporting whether it was
present, and also removes any corresponding entry from the ranked list. -/
def removeRoot (id : Identity) (st : TopoState) : Bool × TopoState :=
  if id ∈ st.roots then
    (true,
     { st with
        roots := st.roots.erase id,
        rootPeers := st.rootPeers.filter fun q => decide (q.identity ≠ id) })
  else (false, st)

/-- Modelled from the spec: resolution of a root identity to its currently
registered live peer, the registered peer at the identity's address when its
identity is that root identity. -/
def regPeer (st : TopoState) (id : Identity) : Option Peer :=
  match Topology.get st.peers id.addr with
  | some q => if q.identity = id then some q else none
  | none => none

/-- Insertion of a peer into a list sorted by ascending latency. -/
def insertByLatency (q : Peer) : List Peer → List Peer
  | [] => [q]
  | x :: xs => if q.latency ≤ x.latency then q :: x :: xs else x :: insertByLatency q xs

/-- Insertion sort of peers by ascending latency. -/
def sortByLatency : List Peer → List Peer
  | [] => []
  | x :: xs => insertByLatency x (sortByLatency xs)

/-- Modelled from the spec: Topology::rankRoots (not among the sources)
rebuilds the ranked list from the current membership set, resolving each root
identity to its live peer when one is registered and sorting the resolved
peers by ascending measured latency; roots without a registered peer are
omitted from the list but stay in the membership set. -/
def rankRoots (now : Int) (st : TopoState) : TopoState :=
  { st with rootPeers := sortByLatency (st.roots.filterMap (regPeer st)) }

/-- The root operations whose sequences the root-set invariant quantifies
over. -/
inductive RootOp where
  | addR (id : Identity)
  | removeR (id : Identity)
  | rankR (now : Int)

/-- Application of one root operation to the state. -/
def applyRootOp (st : TopoState) : RootOp → TopoState
  | RootOp.addR id => addRoot id st
  | RootOp.removeR id => (removeRoot id st).2
  | RootOp.rankR now => rankRoots now st

/-- Application of a sequence of root operations, first operation first. -/
def applyRootOps (ops : List RootOp) (st : TopoState) : TopoState :=
  ops.foldl applyRootOp st

/-- The first half of the cross-structure invariant: every peer in the ranked
list has its identity in the membership set. -/
def rankedInRoots (st : TopoState) : Prop :=
  ∀ q ∈ st.rootPeers, q.identity ∈ st.roots

/-- The second half of the cross-structure invariant: every membership
identity either has its registered peer in the ranked list or has no
currently registered peer. -/
def rootsRanked (st : TopoState) : Prop :=
  ∀ id ∈ st.roots, (∃ q ∈ st.rootPeers, q.identity = id) ∨ regPeer st id = none

/-- The full claimed root-set consistency invariant. -/
def rootInvariant (st : TopoState) : Prop :=
  rankedInRoots st ∧ rootsRanked st

instance (st : TopoState) : Decidable (rankedInRoots st) := by
  unfold rankedInRoots
  infer_instance

instance (st : TopoState) : Decidable (rootsRanked st) := by
  unfold rootsRanked
  infer_instance

instance (st : TopoState) : Decidable (rootInvariant st) := by
  unfold rootInvariant
  infer_instance

end Topology

theorem Topology.mem_insertByLatency (q x : Peer) (l : List Peer) :
    q ∈ Topology.insertByLatency x l ↔ q = x ∨ q ∈ l := by
  induction l with
  | nil => simp [Topology.insertByLatency]
  | cons y ys ih =>
    unfold Topology.insertByLatency
    by_cases h : x.latency ≤ y.latency
    · simp [h, List.mem_cons]
    · simp only [h, if_false, List.mem_cons, ih]
      tauto

theorem Topology.mem_sortByLatency (q : Peer) (l : List Peer) :
    q ∈ Topology.sortByLatency l ↔ q ∈ l := by
  induction l with
  | nil => simp [Topology.sortByLatency]
  | cons y ys ih =>
    simp [Topology.sortByLatency, Topology.mem_insertByLatency, ih]

theorem Topology.regPeer_identity (st : TopoState) (id : Identity) (q : Peer)
    (h : Topology.regPeer st id = some q) : q.identity = id := by
  unfold Topology.regPeer at h
  split at h
  · split at h
    · cases h
      assumption
    · cases h
  · cases h

/-- Immediately after rankRoots, from any prior state, the full root-set
consistency invariant holds: the ranked list is exactly the sorted resolution
of the membership set through the registered peers. -/
theorem Topology.rankRoots_rootInvariant (now : Int) (st : TopoState) :
    Topology.rootInvariant (Topology.rankRoots now st) := by
  constructor
  · intro q hq
    have hq2 : q ∈ (st.roots.filterMap (Topology.regPeer st)) :=
      (Topology.mem_sortByLatency q _).1 hq
    rcases List.mem_filterMap.1 hq2 with ⟨id, hid, hreg⟩
    have : q.identity = id := Topology.regPeer_identity st id q hreg
    rw [this]
    exact hid
  · intro id hid
    cases hreg : Topology.regPeer st id with
    | none =>
      right
      exact hreg
    | some q =>
      left
      refine ⟨q, ?_, Topology.regPeer_identity st id q hreg⟩
      exact (Topology.mem_sortByLatency q _).2 (List.mem_filterMap.2 ⟨id, hid, hreg⟩)

theorem Topology.addRoot_rankedInRoots (id : Identity) (st : TopoState)
    (h : Topology.rankedInRoots st) : Topology.rankedInRoots (Topology.addRoot id st) := by
  unfold Topology.addRoot
  by_cases hm : id ∈ st.roots
  · rw [if_pos hm]
    exact h
  · rw [if_neg hm]
    intro q hq
    exact List.mem_cons_of_mem id (h q hq)

theorem Topology.removeRoot_rankedInRoots (id : Identity) (st : TopoState)
    (h : Topology.rankedInRoots st) :
    Topology.rankedInRoots (Topology.removeRoot id st).2 := by
  unfold Topology.removeRoot
  by_cases hm : id ∈ st.roots
  · rw [if_pos hm]
    intro q hq
    rcases List.mem_filter.1 hq with ⟨hq1, hq2⟩
    have hne : q.identity ≠ id := of_decide_eq_true hq2
    exact (List.mem_erase_of_ne hne).2 (h q hq1)
  · rw [if_neg hm]
    exact h

theorem Topology.applyRootOp_rankedInRoots (st : TopoState) (op : Topology.RootOp)
    (h : Topology.rankedInRoots st) : Topology.rankedInRoots (Topology.applyRootOp st op) := by
  cases op with
  | addR id => exact Topology.addRoot_rankedInRoots id st h
  | removeR id => exact Topology.removeRoot_rankedInRoots id st h
  | rankR now => exact (Topology.rankRoots_rootInvariant now st).1

theorem Topology.applyRootOps_rankedInRoots (ops : List Topology.RootOp) (st : TopoState)
    (h : Topology.rankedInRoots st) :
    Topology.rankedInRoots (Topology.applyRootOps ops st) := by
  induction ops generalizing st with
  | nil => exact h
  | cons op rest ih => exact ih _ (Topology.applyRootOp_rankedInRoots st op h)

/-- Counterexample for C5 as stated: starting from a state holding one
registered peer and no roots, the single call addRoot with that peer's
identity leaves the membership set holding an identity whose peer is
registered yet absent from the ranked list, so the claimed invariant fails
after this sequence of root calls. -/
theorem Topology.rootInvariant_counterexample :
    ¬ Topology.rootInvariant
        (Topology.applyRootOps [Topology.RootOp.addR ⟨5, 77⟩]
          ⟨(Topology.add ⟨1, ⟨5, 77⟩, 10⟩ []).2, [], []⟩) := by
  decide

/-- C5 amended: after any sequence of addRoot, removeRoot and rankRoots calls
from a state whose ranked peers all lie in the membership set, every ranked
peer's identity is still in the membership set; and the full two-way
consistency — every membership identity has its registered peer in the ranked
list or no registered peer — holds whenever the sequence is followed by a
rankRoots call (between an addRoot of an identity with a registered peer and
the next rankRoots, the second half can fail, as the counterexample shows). -/
theorem Topology.rootSet_consistency (st0 : TopoState) (ops : List Topology.RootOp)
    (now : Int) (h : Topology.rankedInRoots st0) :
    Topology.rankedInRoots (Topology.applyRootOps ops st0)
    ∧ Topology.rootInvariant (Topology.rankRoots now (Topology.applyRootOps ops st0)) :=
  ⟨Topology.applyRootOps_rankedInRoots ops st0 h,
   Topology.rankRoots_rootInvariant now (Topology.applyRootOps ops st0)⟩

/-- Closed witness for C5: from a state with one registered peer, adding its
identity as a root and then ranking keeps the first half of the invariant
everywhere and the full invariant right after the rankRoots call. -/
theorem Topology.rootSet_consistency_witness :
    Topology.rankedInRoots (⟨[(5, some ⟨1, ⟨5, 77⟩, 10⟩)], [], []⟩ : TopoState)
    ∧ (Topology.rankedInRoots
        (Topology.applyRootOps [Topology.RootOp.addR ⟨5, 77⟩, Topology.RootOp.rankR 0]
          ⟨[(5, some ⟨1, ⟨5, 77⟩, 10⟩)], [], []⟩)
      ∧ Topology.rootInvariant
          (Topology.rankRoots 3
            (Topology.applyRootOps [Topology.RootOp.addR ⟨5, 77⟩, Topology.RootOp.rankR 0]
              ⟨[(5, some ⟨1, ⟨5, 77⟩, 10⟩)], [], []⟩))) :=
  ⟨by decide,
   Topology.rootSet_consistency ⟨[(5, some ⟨1, ⟨5, 77⟩, 10⟩)], [], []⟩
     [Topology.RootOp.addR ⟨5, 77⟩, Topology.RootOp.rankR 0] 3 (by decide)⟩

/-- C7: findRelayTo ignores both the time and the destination address and
agrees with root on every state. -/
theorem Topology.findRelayTo_eq_root (now : Int) (toAddr : Nat) (st : TopoState) :
    Topology.findRelayTo now toAddr st = Topology.root st := by
  unfold Topology.findRelayTo Topology.root
  rfl

/-- A Path object: an allocation number standing for C++ object identity plus
the local socket and remote address it was constructed from. -/
structure Path where
  alloc : Nat
  localSocket : Int
  remote : Nat
deriving DecidableEq

/-- Path::HashKey built from the local socket and the remote address. -/
abbrev PathKey := Int × Nat

/-- The path lock domain of Topology: the _paths table (values are shared
pointers, none being empty) and an allocation counter giving every
successfully constructed Path a fresh object identity. -/
structure PathsState where
  paths : HT PathKey (Option Path)
  nextAlloc : Nat
deriving DecidableEq

namespace Topology

/-- Embedding of Topology::getPath. The read-locked phase looks the key up
with the bracket operator (default-inserting an empty shared pointer on a
miss) and returns any nonempty hit; the write-locked phase re-reads the same
reference and, still finding it empty, constructs a new Path — the allocOk
argument stands for whether the construction throws — storing it through the
reference on success and returning the empty pointer on failure. -/
def getPath (allocOk : Bool) (l : Int) (r : Nat) (st : PathsState) :
    Option Path × PathsState :=
  let k : PathKey := (l, r)
  match (HT.bracket st.paths k none : Option Path × HT PathKey (Option Path)) with
  | (some q, t1) => (some q, { st with paths := t1 })
  | (none, t1) =>
    match (HT.bracket t1 k none : Option Path × HT PathKey (Option Path)) with
    | (some q, t2) => (some q, { st with paths := t2 })
    | (none, t2) =>
      if allocOk then
        (some ⟨st.nextAlloc, l, r⟩,
         { paths := t2.put k (some ⟨st.nextAlloc, l, r⟩), nextAlloc := st.nextAlloc + 1 })
      else
        (none, { st with paths := t2 })

/-- The nonempty cached handle for a key, as the read phase of getPath
observes it: the stored shared pointer when an entry exists, empty
otherwise. -/
def cachedPath (st : PathsState) (k : PathKey) : Option Path :=
  match st.paths.ent? k with
  | some v => v
  | none => none

/-- One getPath call: whether construction would succeed, the local socket
and the remote address. -/
abbrev PathCall := Bool × Int × Nat

/-- State after a sequence of getPath calls, first call first. -/
def applyPathCalls (calls : List PathCall) (st : PathsState) : PathsState :=
  calls.foldl (fun s c => (getPath c.1 c.2.1 c.2.2 s).2) st

theorem getPath_post_ent (ok : Bool) (l : Int) (r : Nat) (st : PathsState) :
    ((getPath ok l r st).2).paths.ent? (l, r) = some ((getPath ok l r st).1) := by
  unfold getPath HT.bracket
  cases he : HT.ent? st.paths (l, r) with
  | some v =>
    cases v with
    | some q => simp [he]
    | none => cases ok <;> simp [he, HT.ent?_put_self]
  | none => cases ok <;> simp [he, HT.ent?_put_self]

theorem getPath_hit (ok : Bool) (l : Int) (r : Nat) (st : PathsState) (p : Path)
    (h : st.paths.ent? (l, r) = some (some p)) : getPath ok l r st = (some p, st) := by
  unfold getPath HT.bracket
  simp [h]

theorem getPath_preserves_entry (ok : Bool) (l2 : Int) (r2 : Nat) (st : PathsState)
    (k : PathKey) (p : Path) (h : st.paths.ent? k = some (some p)) :
    ((getPath ok l2 r2 st).2).paths.ent? k = some (some p) := by
  by_cases hk : k = (l2, r2)
  · subst hk
    rw [getPath_hit ok l2 r2 st p h]
    exact h
  · unfold getPath HT.bracket
    cases he : HT.ent? st.paths (l2, r2) with
    | some v =>
      cases v with
      | some q => simpa [he] using h
      | none => cases ok <;> simp [he, HT.ent?_put_self, HT.ent?_put_ne, hk, h]
    | none => cases ok <;> simp [he, HT.ent?_put_self, HT.ent?_put_ne, hk, h]

theorem applyPathCalls_preserves_entry (calls : List PathCall) (st : PathsState)
    (k : PathKey) (p : Path) (h : st.paths.ent? k = some (some p)) :
    (applyPathCalls calls st).paths.ent? k = some (some p) := by
  induction calls generalizing st with
  | nil => exact h
  | cons c cs ih =>
    exact ih _ (getPath_preserves_entry c.1 c.2.1 c.2.2 st k p h)

/-- C2: once a getPath call for a key returns a nonempty handle p, every later
getPath call for the same key — after any interleaving of getPath calls on
arbitrary keys — returns the very same object p and leaves the whole path
state untouched, so no second Path is ever constructed for the key. -/
theorem getPath_canonical (ok : Bool) (l : Int) (r : Nat) (st : PathsState)
    (p : Path) (h : (getPath ok l r st).1 = some p) (calls : List PathCall)
    (okNext : Bool) :
    getPath okNext l r (applyPathCalls calls (getPath ok l r st).2) =
      (some p, applyPathCalls calls (getPath ok l r st).2) := by
  have h1 : ((getPath ok l r st).2).paths.ent? (l, r) = some (some p) := by
    rw [getPath_post_ent, h]
  have h2 : (applyPathCalls calls (getPath ok l r st).2).paths.ent? (l, r)
      = some (some p) :=
    applyPathCalls_preserves_entry calls (getPath ok l r st).2 (l, r) p h1
  exact getPath_hit okNext l r _ p h2

/-- Closed witness for C2: a first successful getPath on an empty cache hands
out the path allocated as object 0, and after an unrelated call the same key
returns that object with the state unchanged, even with construction now
forbidden. -/
theorem getPath_canonical_witness :
    (getPath true 0 1 ⟨[], 0⟩).1 = some ⟨0, 0, 1⟩
    ∧ getPath false 0 1 (applyPathCalls [(true, 2, 3)] (getPath true 0 1 ⟨[], 0⟩).2) =
        (some ⟨0, 0, 1⟩, applyPathCalls [(true, 2, 3)] (getPath true 0 1 ⟨[], 0⟩).2) :=
  ⟨by decide,
   getPath_canonical true 0 1 ⟨[], 0⟩ ⟨0, 0, 1⟩ (by decide) [(true, 2, 3)] false⟩

theorem getPath_none_char (ok : Bool) (l : Int) (r : Nat) (st : PathsState) :
    (getPath ok l r st).1 = none ↔ (cachedPath st (l, r) = none ∧ ok = false) := by
  unfold getPath HT.bracket cachedPath
  cases he : HT.ent? st.paths (l, r) with
  | some v =>
    cases v with
    | some q => simp [he]
    | none => cases ok <;> simp [he, HT.ent?_put_self]
  | none => cases ok <;> simp [he, HT.ent?_put_self]

/-- C4: getPath returns the empty handle exactly when no nonempty path is
cached for the key and Path construction fails; in every other situation it
returns a nonempty handle, and the embedding is a total function, so the
failure is an explicit empty result rather than a propagated exception. -/
theorem getPath_failure_iff (ok : Bool) (l : Int) (r : Nat) (st : PathsState) :
    (getPath ok l r st).1 = none ↔ (cachedPath st (l, r) = none ∧ ok = false) :=
  getPath_none_char ok l r st

theorem getPath_false_nextAlloc (l : Int) (r : Nat) (st : PathsState) :
    ((getPath false l r st).2).nextAlloc = st.nextAlloc := by
  unfold getPath HT.bracket
  cases he : HT.ent? st.paths (l, r) with
  | some v => cases v <;> simp [he, HT.ent?_put_self]
  | none => simp [he, HT.ent?_put_self]

theorem getPath_retry (l : Int) (r : Nat) (st : PathsState)
    (h : st.paths.ent? (l, r) = some none) :
    (getPath true l r st).1 = some ⟨st.nextAlloc, l, r⟩ := by
  unfold getPath HT.bracket
  simp [h]

/-- C10 amended: a failing getPath call always leaves the cache with an entry
for the key holding an empty handle — the bracket lookup inserted it when it
was absent, so a call failing on a previously untouched key does change the
cache — and a later getPath for the key re-attempts construction and succeeds
when construction now works, with the object numbered by the unchanged
allocation counter; a failing call on a key whose empty entry already exists,
however, leaves the state exactly as it was. -/
theorem getPath_failure_spec (ok : Bool) (l : Int) (r : Nat) (st : PathsState)
    (h : (getPath ok l r st).1 = none) :
    ((getPath ok l r st).2).paths.ent? (l, r) = some none
    ∧ (st.paths.ent? (l, r) = none → (getPath ok l r st).2 ≠ st)
    ∧ (getPath true l r (getPath ok l r st).2).1 = some ⟨st.nextAlloc, l, r⟩ := by
  have hpost : ((getPath ok l r st).2).paths.ent? (l, r) = some ((getPath ok l r st).1) :=
    getPath_post_ent ok l r st
  rw [h] at hpost
  have hok : ok = false := ((getPath_none_char ok l r st).1 h).2
  subst hok
  refine ⟨hpost, ?_, ?_⟩
  · intro hpre heq
    rw [heq, hpre] at hpost
    cases hpost
  · rw [getPath_retry l r _ hpost, getPath_false_nextAlloc]

/-- Closed witness for C10 amended: on the empty cache a failing call for key
(0, 1) returns the empty handle, installs the empty entry (so the state
differs from the empty pre-state), and a retry with working construction
yields the path allocated as object 0. -/
theorem getPath_failure_spec_witness :
    (getPath false 0 1 (⟨[], 0⟩ : PathsState)).1 = none
    ∧ (((getPath false 0 1 (⟨[], 0⟩ : PathsState)).2).paths.ent? (0, 1) = some none
      ∧ ((⟨[], 0⟩ : PathsState).paths.ent? (0, 1) = none →
          (getPath false 0 1 (⟨[], 0⟩ : PathsState)).2 ≠ (⟨[], 0⟩ : PathsState))
      ∧ (getPath true 0 1 (getPath false 0 1 (⟨[], 0⟩ : PathsState)).2).1
          = some ⟨0, 0, 1⟩) :=
  ⟨by decide, getPath_failure_spec false 0 1 ⟨[], 0⟩ (by decide)⟩

/-- Counterexample for C10 as stated: when the empty entry for the key is
already present — here because an earlier failing call installed it — a
failing getPath call returns the empty handle and leaves the cache exactly in
its pre-call state, so a failing call does not always change the cache. -/
theorem getPath_failure_pre_state_counterexample :
    (getPath false 0 1 (getPath false 0 1 (⟨[], 0⟩ : PathsState)).2).1 = none
    ∧ (getPath false 0 1 (getPath false 0 1 (⟨[], 0⟩ : PathsState)).2).2
        = (getPath false 0 1 (⟨[], 0⟩ : PathsState)).2 := by
  decide

end Topology

end ZeroTier
